import Mathlib

/-!
Verification development for the NASA publications knowledge-graph repository
(`src/adi.py` and `src/visualize.py`).

The Python code is shallowly embedded: text values are lists of characters
(`Str`), records are structures, the `networkx` graph is a pair of an
insertion-ordered node list and an insertion-ordered edge list, and the
regular-expression matching of the two fixed patterns (missions, organisms)
is implemented directly, alternative by alternative, with Python's
left-to-right scanning, first-matching-alternative choice and word-boundary
backtracking behaviour.

Modelling conventions:
- character classes (`\s`, `\w`), case folding and `str.lower`/`str.title`
  are modelled over the ASCII range, extended by the three non-ASCII code
  points that CPython's `re.IGNORECASE` folds into the letters of these
  (pure-ASCII) patterns: dotted capital I (U+0130) and dotless small i
  (U+0131), which match `i`, and long s (U+017F), which matches `s`.  All
  three are alphabetic, hence `\w`, in Python.  On texts made of ASCII
  characters and these three code points the matchers below agree with
  CPython's engine (checked differentially); other non-ASCII input is
  outside the model;
- Python `set(...)` iteration order is modelled as first-occurrence order
  of the underlying list (the claims proved here do not depend on the
  iteration order of a Python set);
- `dict` iteration order is Python's insertion order, kept as list order.
-/

/-- Text values are modelled as lists of characters. -/
abbrev Str := List Char

/-- Python regex class `\s` over ASCII: space, tab, newline, carriage
return, vertical tab, form feed. -/
def isSpaceCh (c : Char) : Bool :=
  c == ' ' || c == '\t' || c == '\n' || c == '\r' || c.toNat == 11 || c.toNat == 12

/-- Python regex class `\w`: ASCII letters, digits and underscore, plus
the three modelled non-ASCII letters (U+0130, U+0131, U+017F), which are
alphabetic and therefore word characters in Python. -/
def isWordCh (c : Char) : Bool :=
  c.isAlpha || c.isDigit || c == '_'
    || c.toNat == 0x130 || c.toNat == 0x131 || c.toNat == 0x17F

/-- ASCII decimal digit, Python regex class `\d`. -/
def isDigitCh (c : Char) : Bool :=
  c.isDigit

/-- Lower-casing of a text, modelling Python `str.lower` on ASCII. -/
def toLowerStr (s : Str) : Str :=
  s.map Char.toLower

/-- Case folding applied by CPython's `re.IGNORECASE` to literal pattern
characters, restricted to the foldings that can reach the ASCII letters
of this repository's patterns: the simple lowercase of dotted capital I
(U+0130) is `i`, and the extra-case equivalences pair dotless small i
(U+0131) with `i` and long s (U+017F) with `s`; ASCII characters fold by
ordinary ASCII lowering. -/
def pyLowerCh (c : Char) : Char :=
  if c.toNat == 0x130 then 'i'
  else if c.toNat == 0x131 then 'i'
  else if c.toNat == 0x17F then 's'
  else c.toLower

/-- Case-insensitive literal match at the front of `s`; returns the rest of
`s` after the literal on success.  This models matching a fixed literal
fragment of a pattern compiled with `re.IGNORECASE`, with CPython's
Unicode case folding (`pyLowerCh`) rather than plain ASCII lowering. -/
def ciLit : Str → Str → Option Str
  | [], s => some s
  | _ :: _, [] => none
  | p :: ps, c :: cs => if pyLowerCh c == pyLowerCh p then ciLit ps cs else none

/-- Exact literal match at the front of a text (case-sensitive), used for
Python substring containment `needle in hay`. -/
def leadMatch : Str → Str → Bool
  | [], _ => true
  | _ :: _, [] => false
  | n :: ns, c :: cs => n == c && leadMatch ns cs

/-- Python substring containment `needle in hay`. -/
def containsSub (needle : Str) : Str → Bool
  | [] => leadMatch needle []
  | c :: cs => leadMatch needle (c :: cs) || containsSub needle cs

/-- First-occurrence deduplication with an accumulator of already-seen
elements. -/
def dedupGo {α : Type} [DecidableEq α] (seen : List α) : List α → List α
  | [] => []
  | x :: xs => if x ∈ seen then dedupGo seen xs else x :: dedupGo (x :: seen) xs

/-- First-occurrence deduplication; models iterating over `set(xs)` built
from the list `xs` of matches. -/
def dedupF {α : Type} [DecidableEq α] (l : List α) : List α :=
  dedupGo [] l

/-- Strip of leading and trailing whitespace, Python `str.strip()`. -/
def stripWs (s : Str) : Str :=
  List.rdropWhile isSpaceCh (s.dropWhile isSpaceCh)

/-- Collapse of every whitespace run to a single space, modelling
`re.sub(r'\s+', ' ', text)`.  The flag records whether the current position
is inside a whitespace run whose single replacement space was already
emitted. -/
def collapseWs : Bool → Str → Str
  | _, [] => []
  | inRun, c :: cs =>
    if isSpaceCh c then
      if inRun then collapseWs true cs else ' ' :: collapseWs true cs
    else
      c :: collapseWs false cs

/-- Removal of a leading `Abstract`/`Introduction` section label, modelling
`re.sub(r'^\s*(Abstract|Introduction)\s*[:\n\r\-]*\s*', '', text, flags=re.IGNORECASE)`:
when the label does not occur, the text (including its leading whitespace)
is returned unchanged. -/
def stripLabel (s : Str) : Str :=
  let t := s.dropWhile isSpaceCh
  let after := fun (r : Str) =>
    ((r.dropWhile isSpaceCh).dropWhile
        (fun c => c == ':' || c == '\n' || c == '\r' || c == '-')).dropWhile isSpaceCh
  match ciLit "abstract".data t with
  | some r => after r
  | none =>
    match ciLit "introduction".data t with
    | some r => after r
    | none => s

/-- Removal of one matching pair of surrounding straight quotes, modelling
lines 33-34 of `src/adi.py` (note that a one-character text consisting of a
single quote satisfies both `startswith` and `endswith` and becomes empty,
exactly as `text[1:-1]` does in Python). -/
def stripQuotes (s : Str) : Str :=
  if (s.head? == some '"' && s.getLast? == some '"')
      || (s.head? == some '\'' && s.getLast? == some '\'') then
    (s.drop 1).dropLast
  else s

/-- The text normalizer `_clean_text` of `src/adi.py` (lines 20-37).  A
`none` argument models Python `None`; a `some` argument models any value
already in textual form (`str(s)` is the identity there). -/
def cleanText : Option Str → Str
  | none => []
  | some s => stripWs (collapseWs false (stripQuotes (stripLabel s)))

/-- Word-ness of an optional character: `false` at a text edge, `\w`
membership otherwise. -/
def wordb : Option Char → Bool
  | none => false
  | some c => isWordCh c

/-- Word boundary `\b` between an optional previous character and the
optional next character. -/
def boundaryB (prev next : Option Char) : Bool :=
  wordb prev != wordb next

/-- Boundary test after a match whose last character is a word character:
the remaining text must not begin with a word character. -/
def endB (rest : Str) : Bool :=
  !(wordb rest.head?)

/-- Matching of one plain case-insensitive alternative followed by the
pattern's trailing `\b` (every alternative of both patterns ends in a word
character, so the trailing boundary holds exactly when the rest does not
begin with a word character).  Returns the matched length. -/
def altLit (pat : Str) (s : Str) : Option Nat :=
  match ciLit pat s with
  | some r => if endB r then some pat.length else none
  | none => none

/-- Length matched at the current position by
`(mice|mouse|Mus musculus|rats|human|Homo sapiens|C57BL/6J?)\b`,
alternatives tried in Python's left-to-right order.  The final alternative
implements the greedy optional `J?`: if a `j`/`J` follows `C57BL/6` then
only the long form can satisfy the trailing `\b` (between `6` and `J` both
sides are word characters, so dropping the `J` cannot create a boundary). -/
def orgAltLen (s : Str) : Option Nat :=
  match altLit "mice".data s with
  | some n => some n
  | none =>
  match altLit "mouse".data s with
  | some n => some n
  | none =>
  match altLit "mus musculus".data s with
  | some n => some n
  | none =>
  match altLit "rats".data s with
  | some n => some n
  | none =>
  match altLit "human".data s with
  | some n => some n
  | none =>
  match altLit "homo sapiens".data s with
  | some n => some n
  | none =>
  match ciLit "c57bl/6".data s with
  | some r =>
    match r with
    | [] => some 7
    | c :: r2 =>
      if pyLowerCh c == 'j' then (if endB r2 then some 8 else none)
      else (if endB (c :: r2) then some 7 else none)
  | none => none

/-- The organism pattern of `src/adi.py` line 152 at one position: leading
`\b`, then the alternation, then the trailing `\b` (folded into the
alternative matchers). -/
def organismMatchLen (prev : Option Char) (s : Str) : Option Nat :=
  if boundaryB prev s.head? then orgAltLen s else none

/-- Matching of `Bion-M\s?\d+` followed by the trailing `\b`.  Greedy
backtracking collapses to: an optional single whitespace, then the maximal
nonempty digit run, then a boundary (shortening the digit run can never
create a boundary between two digits, and when a whitespace was consumed
the zero-whitespace branch cannot reach a digit). -/
def misBion (s : Str) : Option Nat :=
  match ciLit "bion-m".data s with
  | some r =>
    let sp := if r.head?.any isSpaceCh then 1 else 0
    let r2 := r.drop sp
    let d := r2.takeWhile isDigitCh
    if d.isEmpty then none
    else if endB (r2.drop d.length) then some (6 + sp + d.length) else none
  | none => none

/-- Matching of `STS-\d+` followed by the trailing `\b`. -/
def misSts (s : Str) : Option Nat :=
  match ciLit "sts-".data s with
  | some r =>
    let d := r.takeWhile isDigitCh
    if d.isEmpty then none
    else if endB (r.drop d.length) then some (4 + d.length) else none
  | none => none

/-- Matching of `Spacelab-?\d*` followed by the trailing `\b`, with
Python's greedy backtracking: the engine prefers the dash and the maximal
digit run, then retreats digit by digit (a boundary can only appear right
after the non-word dash or right after the final word character), and
finally retreats over the dash.  Without a dash, a nonempty maximal digit
run must be followed by a boundary (retreating between digits, or to the
position between the `b` and the first digit, never creates one). -/
def misSpl (s : Str) : Option Nat :=
  match ciLit "spacelab".data s with
  | some r =>
    match r with
    | '-' :: r2 =>
      let d := r2.takeWhile isDigitCh
      if d.isEmpty then
        if wordb r2.head? then some 9
        else some 8
      else
        if endB (r2.drop d.length) then some (9 + d.length)
        else some 9
    | _ =>
      let d := r.takeWhile isDigitCh
      if d.isEmpty then
        if endB r then some 8 else none
      else
        if endB (r.drop d.length) then some (8 + d.length) else none
  | none => none

/-- Length matched at the current position by the mission alternation
`(Bion-M\s?\d+|STS-\d+|ISS|International Space Station|Space Shuttle|Spacelab-?\d*|NeuroLab)\b`
of `src/adi.py` line 120, alternatives tried in Python's order. -/
def misAltLen (s : Str) : Option Nat :=
  match misBion s with
  | some n => some n
  | none =>
  match misSts s with
  | some n => some n
  | none =>
  match altLit "iss".data s with
  | some n => some n
  | none =>
  match altLit "international space station".data s with
  | some n => some n
  | none =>
  match altLit "space shuttle".data s with
  | some n => some n
  | none =>
  match misSpl s with
  | some n => some n
  | none => altLit "neurolab".data s

/-- The mission pattern of `src/adi.py` line 120 at one position. -/
def missionMatchLen (prev : Option Char) (s : Str) : Option Nat :=
  if boundaryB prev s.head? then misAltLen s else none

/-- Python `re.findall` scanning: positions are tried left to right; on a
match the scan resumes after the matched text (recording the matched
substring), otherwise it advances one character.  `prev` is the character
before the current position, needed for `\b`.  A zero-length match (which
neither fixed pattern can produce) is recorded and the scan advances one
character, as `re.findall` does. -/
def reFindGo (f : Option Char → Str → Option Nat) : Nat → Option Char → Str → List Str
  | 0, _, _ => []
  | _ + 1, _, [] => []
  | fuel + 1, prev, c :: cs =>
    match f prev (c :: cs) with
    | none => reFindGo f fuel (some c) cs
    | some n =>
      if n = 0 then [] :: reFindGo f fuel (some c) cs
      else
        ((c :: cs).take n) :: reFindGo f fuel (((c :: cs).take n).getLast?) ((c :: cs).drop n)

/-- Scanning entry point; the fuel `s.length + 1` is never exhausted since
every step of `reFindGo` consumes at least one character. -/
def reFindAll (f : Option Char → Str → Option Nat) (prev : Option Char) (s : Str) : List Str :=
  reFindGo f (s.length + 1) prev s

/-- Python `str.title` over ASCII: a letter is uppercased when the previous
character is not a letter and lowercased otherwise; other characters pass
through and reset the word state. -/
def titleCaseGo : Bool → Str → Str
  | _, [] => []
  | prevAlpha, c :: cs =>
    (if c.isAlpha then (if prevAlpha then c.toLower else c.toUpper) else c)
      :: titleCaseGo c.isAlpha cs

/-- Python `str.title` (the defensive fallback of the organism loop). -/
def titleCase (s : Str) : Str :=
  titleCaseGo false s

/-- Attributes attached to a node by the graph-building loops. -/
structure NodeAttrs where
  ty : Str
  color : Str
  size : Nat
  label : Str
deriving DecidableEq, Repr

/-- The `networkx.Graph`: nodes with attributes in insertion order, and
undirected edges in insertion order. -/
structure Graph where
  nodes : List (Str × NodeAttrs)
  edges : List (Str × Str)
deriving DecidableEq, Repr

/-- The graph `nx.Graph()` starts from. -/
def graphInit : Graph := ⟨[], []⟩

/-- Membership of a key among the graph's nodes. -/
def hasNode (G : Graph) (k : Str) : Bool :=
  G.nodes.any (fun p => p.1 == k)

/-- The `type_colors` dictionary shared by both source files. -/
def typeColors : List (Str × Str) :=
  [("Publication".data, "#ff6f61".data), ("Mission".data, "#9e9ac8".data),
   ("Keyword".data, "#74c476".data), ("Organism".data, "#6baed6".data),
   ("Location".data, "#fdae6b".data)]

/-- Color lookup `type_colors[ty]`. -/
def colorOf (ty : Str) : Str :=
  (typeColors.lookup ty).getD []

/-- The `G.add_node(key, **attrs)` call of `networkx`: a new key is
appended, an existing key keeps its position and has its attribute
dictionary overwritten (all four attributes are always supplied). -/
def addNode (G : Graph) (k : Str) (a : NodeAttrs) : Graph :=
  if hasNode G k then
    { G with nodes := G.nodes.map (fun p => if p.1 == k then (k, a) else p) }
  else
    { G with nodes := G.nodes ++ [(k, a)] }

/-- Presence of an undirected edge. -/
def hasEdge (G : Graph) (u v : Str) : Bool :=
  G.edges.any (fun e => (e.1 == u && e.2 == v) || (e.1 == v && e.2 == u))

/-- The `G.add_edge(u, v)` call of `networkx` for endpoints that are
already nodes: re-adding an existing edge is a no-op. -/
def addEdge (G : Graph) (u v : Str) : Graph :=
  if hasEdge G u v then G else { G with edges := G.edges ++ [(u, v)] }

/-- A record as the graph-building loop receives it; `nonDict` models a
value failing `isinstance(doc, dict)`. -/
structure Doc where
  Title : Str
  Abstract : Str
  Introduction : Str
  Link : Str
deriving DecidableEq, Repr

/-- Raw mapping value: a dictionary-shaped record or anything else. -/
inductive RawDoc where
  | obj (d : Doc)
  | nonDict
deriving DecidableEq, Repr

/-- Field normalization applied by both data-loading branches of
`src/adi.py` (lines 63-68 and 86-91): every field goes through
`_clean_text`; `none` stands for an absent or `None` field. -/
def cleanDoc (t a i lk : Option Str) : Doc :=
  ⟨cleanText t, cleanText a, cleanText i, cleanText lk⟩

/-- The keyword lexicon of `src/adi.py` lines 131-144, in dictionary
insertion order. -/
def keywordsList : List (Str × Str) :=
  [("microgravity".data, "Microgravity".data),
   ("bone".data, "Bone".data),
   ("muscle".data, "Muscle".data),
   ("cardiovascular".data, "Cardiovascular".data),
   ("radiation".data, "Radiation".data),
   ("oxidative stress".data, "Oxidative Stress".data),
   ("cell cycle".data, "Cell Cycle".data),
   ("stem cell".data, "Stem Cells".data),
   ("osteoblast".data, "Osteoblasts".data),
   ("spaceflight".data, "Spaceflight".data),
   ("immune".data, "Immune System".data),
   ("gene expression".data, "Gene Expression".data)]

/-- The organism canonicalization table of `src/adi.py` lines 154-158. -/
def organismMapping : List (Str × Str) :=
  [("mice".data, "Mice".data), ("mouse".data, "Mice".data),
   ("mus musculus".data, "Mice".data), ("rats".data, "Rats".data),
   ("human".data, "Humans".data), ("homo sapiens".data, "Humans".data),
   ("c57bl/6j".data, "Mice".data), ("c57bl/6".data, "Mice".data)]

/-- The mission extractor: `set(mission_pattern.findall(intro))` iterated
in first-occurrence order. -/
def missionMatches (intro : Str) : List Str :=
  dedupF (reFindAll missionMatchLen none intro)

/-- The organism extractor: `set(organism_pattern.findall(intro + ' ' + abstract))`
iterated in first-occurrence order. -/
def organismMatches (text : Str) : List Str :=
  dedupF (reFindAll organismMatchLen none text)

/-- The keyword extractor: the canonical labels of the lexicon entries
whose phrase occurs in `f"{title} {abstract}".lower()`, in lexicon order. -/
def keywordLabels (title abstract : Str) : List Str :=
  let combined := toLowerStr (title ++ ' ' :: abstract)
  (keywordsList.filter (fun kv => containsSub kv.1 combined)).map (fun kv => kv.2)

/-- One iteration of the graph-building loop of `src/adi.py`
(lines 106-164): reject non-dict records and short titles, add the
publication node, then link missions, keywords and organisms. -/
def processDoc (G : Graph) (docId : Str) (doc : RawDoc) : Graph :=
  match doc with
  | .nonDict => G
  | .obj d =>
    let title := d.Title
    if title.isEmpty || title.length < 5 then G
    else
      let pubId := "pub_".data ++ docId
      let G := addNode G pubId
        ⟨"Publication".data, colorOf "Publication".data, 18, title.take 100⟩
      let intro := d.Introduction
      let G :=
        if intro.isEmpty then G
        else
          (missionMatches intro).foldl (fun G m =>
            let mc := stripWs m
            addEdge (addNode G mc ⟨"Mission".data, colorOf "Mission".data, 14, mc⟩)
              pubId mc) G
      let abstract := d.Abstract
      let G :=
        (keywordLabels title abstract).foldl (fun G kl =>
          addEdge (addNode G kl ⟨"Keyword".data, colorOf "Keyword".data, 10, kl⟩)
            pubId kl) G
      let G :=
        (organismMatches (intro ++ ' ' :: abstract)).foldl (fun G org =>
          let lbl := (organismMapping.lookup (toLowerStr org)).getD (titleCase org)
          addEdge (addNode G lbl ⟨"Organism".data, colorOf "Organism".data, 12, lbl⟩)
            pubId lbl) G
      G

/-- The graph-building part of `load_graph_data` in `src/adi.py`
(lines 99-166), applied to an already-normalized mapping id -> record in
its iteration order. -/
def loadGraphData (data : List (Str × RawDoc)) : Graph :=
  data.foldl (fun G p => processDoc G p.1 p.2) graphInit

namespace Viz

/-- One iteration of the graph-building loop of `src/visualize.py`
(lines 30-93); the loop body is the same rejection test, publication node,
mission, keyword and organism handling as in `src/adi.py`, with the same
patterns, lexicon, table, colors and sizes. -/
def processDoc (G : Graph) (docId : Str) (doc : RawDoc) : Graph :=
  match doc with
  | .nonDict => G
  | .obj d =>
    let title := d.Title
    if title.isEmpty || title.length < 5 then G
    else
      let pubId := "pub_".data ++ docId
      let G := addNode G pubId
        ⟨"Publication".data, colorOf "Publication".data, 18, title.take 100⟩
      let intro := d.Introduction
      let G :=
        if intro.isEmpty then G
        else
          (missionMatches intro).foldl (fun G m =>
            let mc := stripWs m
            addEdge (addNode G mc ⟨"Mission".data, colorOf "Mission".data, 14, mc⟩)
              pubId mc) G
      let abstract := d.Abstract
      let G :=
        (keywordLabels title abstract).foldl (fun G kl =>
          addEdge (addNode G kl ⟨"Keyword".data, colorOf "Keyword".data, 10, kl⟩)
            pubId kl) G
      let G :=
        (organismMatches (intro ++ ' ' :: abstract)).foldl (fun G org =>
          let lbl := (organismMapping.lookup (toLowerStr org)).getD (titleCase org)
          addEdge (addNode G lbl ⟨"Organism".data, colorOf "Organism".data, 12, lbl⟩)
            pubId lbl) G
      G

/-- The graph-building part of `load_graph_data` in `src/visualize.py`
(lines 23-95), applied to a mapping id -> record in iteration order. -/
def loadGraphData (data : List (Str × RawDoc)) : Graph :=
  data.foldl (fun G p => processDoc G p.1 p.2) graphInit

end Viz

/-- Keys of the nodes carrying a given `type` attribute, in node iteration
order, as in `[n for n, d in G.nodes(data=True) if d.get('type') == ty]`. -/
def typedKeys (G : Graph) (ty : Str) : List Str :=
  (G.nodes.filter (fun p => p.2.ty == ty)).map Prod.fst

/-- The Publication node keys `pub_nodes_all` of `src/adi.py` line 197. -/
def pubNodesAll (G : Graph) : List Str :=
  typedKeys G "Publication".data

/-- Adjacency in the undirected graph. -/
def adjacentB (G : Graph) (u v : Str) : Bool :=
  G.edges.any (fun e => (e.1 == u && e.2 == v) || (e.1 == v && e.2 == u))

/-- Membership in `nodes_to_consider` (lines 198-200): a Publication node
or a direct neighbor of one. -/
def relevantB (G : Graph) (n : Str) : Bool :=
  (pubNodesAll G).contains n || (pubNodesAll G).any (fun p => adjacentB G p n)

/-- The projection `sub_G = full_G.subgraph(nodes_to_consider)` of line
201: nodes of `G` in `nodes_to_consider` in their original iteration
order, edges with both endpoints kept. -/
def projectedG (G : Graph) : Graph :=
  ⟨G.nodes.filter (fun p => relevantB G p.1),
   G.edges.filter (fun e => relevantB G e.1 && relevantB G e.2)⟩

/-- The set `pubs_to_show` of line 204: the first `maxP` Publication keys
of the projected graph when `"Publication"` is selected, empty otherwise. -/
def pubsShown (G : Graph) (sel : List Str) (maxP : Nat) : List Str :=
  if sel.contains "Publication".data then (pubNodesAll (projectedG G)).take maxP
  else []

/-- The keep test of the loop in lines 206-215: the node's type must be
selected, and a Publication node must additionally be in `pubs_to_show`. -/
def keepNodeB (sel : List Str) (shown : List Str) (p : Str × NodeAttrs) : Bool :=
  if sel.contains p.2.ty then
    (if p.2.ty == "Publication".data then shown.contains p.1 else true)
  else false

/-- The list `final_nodes_to_keep` built by the loop in lines 206-215. -/
def finalKeep (G : Graph) (sel : List Str) (maxP : Nat) : List Str :=
  ((projectedG G).nodes.filter (keepNodeB sel (pubsShown G sel maxP))).map Prod.fst

/-- An induced subgraph `H.subgraph(keep)`: nodes of `H` with keys in
`keep`, edges of `H` with both endpoints in `keep`. -/
def inducedSub (H : Graph) (keep : List Str) : Graph :=
  ⟨H.nodes.filter (fun p => keep.contains p.1),
   H.edges.filter (fun e => keep.contains e.1 && keep.contains e.2)⟩

/-- The ViewGraph `final_G = sub_G.subgraph(final_nodes_to_keep)` of line
217, as a function of the full graph and the view request. -/
def finalView (G : Graph) (sel : List Str) (maxP : Nat) : Graph :=
  inducedSub (projectedG G) (finalKeep G sel maxP)

/-- Degree of a node: the number of its incident edges. -/
def degreeOf (G : Graph) (n : Str) : Nat :=
  (G.edges.filter (fun e => e.1 == n || e.2 == n)).length

/-- The end-to-end record of the specification, fields normalized by
`_clean_text` as in the JSON loading branch. -/
def c1Graph : Graph :=
  loadGraphData [("1".data, .obj (cleanDoc
    (some "Effects of Microgravity on Mouse Bone in ISS Missions".data)
    (some "microgravity bone".data)
    (some "Aboard the ISS, mice were studied.".data)
    none))]

/-- A record whose Introduction mentions `ISS` and whose other fields
produce no entities. -/
def demoDocA : Doc := ⟨"Alpha Study".data, [], "ISS".data, []⟩

/-- A second record whose Introduction also mentions `ISS`. -/
def demoDocB : Doc := ⟨"Gamma Study".data, [], "the ISS orbit".data, []⟩

/-- The two-record graph of the deduplication scenario. -/
def c2Graph : Graph :=
  loadGraphData [("1".data, .obj demoDocA), ("2".data, .obj demoDocB)]

/-- A record whose Introduction renders the same mission twice, as
`Bion-M1` and as `Bion-M 1`. -/
def c8Graph : Graph :=
  loadGraphData
    [("1".data, .obj ⟨"Bion Study".data, [], "In Bion-M1 and Bion-M 1 flights.".data, []⟩)]

/-- A record with no extractable entities at all. -/
def demoDocC : Doc := ⟨"Alpha Study".data, [], [], []⟩

/-- A record whose Abstract mentions the keyword `bone`. -/
def demoDocD : Doc := ⟨"Gamma Study".data, "bone".data, [], []⟩

/-- The two-publication graph of the publication-cap scenario: the keyword
node `Bone` is attached only to the second publication. -/
def capGraph : Graph :=
  loadGraphData [("1".data, .obj demoDocC), ("2".data, .obj demoDocD)]

/-- The view request selecting Publication and Keyword nodes. -/
def selPubKw : List Str := ["Publication".data, "Keyword".data]

/-! Helper lemmas about the graph primitives. -/

theorem foldl_pres_mem {α : Type} (P : Graph → Prop) (f : Graph → α → Graph) :
    ∀ (l : List α) (G : Graph), (∀ H x, x ∈ l → P H → P (f H x)) → P G →
      P (l.foldl f G)
  | [], _, _, hG => hG
  | x :: xs, G, hf, hG =>
    foldl_pres_mem P f xs (f G x)
      (fun H y hy hH => hf H y (List.mem_cons_of_mem x hy) hH)
      (hf G x (List.mem_cons_self x xs) hG)

theorem mem_addNode {G : Graph} {k : Str} {a : NodeAttrs} {p : Str × NodeAttrs}
    (hp : p ∈ (addNode G k a).nodes) : p = (k, a) ∨ p ∈ G.nodes := by
  unfold addNode at hp
  split at hp
  · obtain ⟨q, hq, hqe⟩ := List.mem_map.1 hp
    by_cases hk : q.1 == k
    · left; rw [if_pos hk] at hqe; exact hqe.symm
    · right; rw [if_neg hk] at hqe; exact hqe ▸ hq
  · rcases List.mem_append.1 hp with h | h
    · exact Or.inr h
    · exact Or.inl (List.mem_singleton.1 h)

theorem addEdge_nodes (G : Graph) (u v : Str) : (addEdge G u v).nodes = G.nodes := by
  unfold addEdge
  split <;> rfl

theorem mem_dedupGo {α : Type} [DecidableEq α] :
    ∀ (l seen : List α) (x : α), x ∈ dedupGo seen l → x ∈ l := by
  intro l
  induction l with
  | nil => intro seen x h; cases h
  | cons a t ih =>
    intro seen x h
    rw [dedupGo] at h
    split at h
    · exact List.mem_cons_of_mem a (ih seen x h)
    · rcases List.mem_cons.1 h with h | h
      · exact h ▸ List.mem_cons_self a t
      · exact List.mem_cons_of_mem a (ih (a :: seen) x h)

theorem not_mem_seen_dedupGo {α : Type} [DecidableEq α] :
    ∀ (l seen : List α) (x : α), x ∈ dedupGo seen l → x ∉ seen := by
  intro l
  induction l with
  | nil => intro seen x h; cases h
  | cons a t ih =>
    intro seen x h
    rw [dedupGo] at h
    split at h
    · exact ih seen x h
    · rcases List.mem_cons.1 h with h | h
      · subst h; assumption
      · exact fun hx => ih (a :: seen) x h (List.mem_cons_of_mem a hx)

theorem nodup_dedupGo {α : Type} [DecidableEq α] :
    ∀ (l seen : List α), (dedupGo seen l).Nodup := by
  intro l
  induction l with
  | nil => intro seen; exact List.nodup_nil
  | cons a t ih =>
    intro seen
    rw [dedupGo]
    split
    · exact ih seen
    · exact List.nodup_cons.2
        ⟨fun hmem => not_mem_seen_dedupGo t (a :: seen) a hmem (List.mem_cons_self a seen),
         ih (a :: seen)⟩

theorem mem_dedupF {α : Type} [DecidableEq α] {l : List α} {x : α}
    (h : x ∈ dedupF l) : x ∈ l :=
  mem_dedupGo l [] x h

theorem nodup_dedupF {α : Type} [DecidableEq α] (l : List α) : (dedupF l).Nodup :=
  nodup_dedupGo l []

theorem keys_inj {l : List (Str × NodeAttrs)} (h : (l.map Prod.fst).Nodup) :
    ∀ p ∈ l, ∀ q ∈ l, p.1 = q.1 → p = q := by
  induction l with
  | nil => intro p hp; cases hp
  | cons a t ih =>
    rw [List.map_cons, List.nodup_cons] at h
    intro p hp q hq he
    rcases List.mem_cons.1 hp with hp | hp <;> rcases List.mem_cons.1 hq with hq | hq
    · rw [hp, hq]
    · exfalso
      apply h.1
      rw [hp] at he
      rw [he]
      exact List.mem_map_of_mem Prod.fst hq
    · exfalso
      apply h.1
      rw [hq] at he
      rw [← he]
      exact List.mem_map_of_mem Prod.fst hp
    · exact ih h.2 p hp q hq he

/-- C1: for the single input record with Title "Effects of Microgravity on
Mouse Bone in ISS Missions", Abstract "microgravity bone", and
Introduction "Aboard the ISS, mice were studied.", the graph assembly
produces exactly 5 nodes — 1 Publication, 1 Mission labelled "ISS", 2
Keywords labelled "Microgravity" and "Bone", 1 Organism labelled "Mice" —
and exactly 4 edges, each joining the Publication node to one of the four
entity nodes. -/
theorem end_to_end_single_record :
    c1Graph.nodes.length = 5 ∧
    typedKeys c1Graph "Publication".data = ["pub_1".data] ∧
    typedKeys c1Graph "Mission".data = ["ISS".data] ∧
    typedKeys c1Graph "Keyword".data = ["Microgravity".data, "Bone".data] ∧
    typedKeys c1Graph "Organism".data = ["Mice".data] ∧
    (c1Graph.nodes.filter (fun p => p.2.ty != "Publication".data)).map (fun p => p.2.label)
      = ["ISS".data, "Microgravity".data, "Bone".data, "Mice".data] ∧
    c1Graph.edges = [("pub_1".data, "ISS".data), ("pub_1".data, "Microgravity".data),
      ("pub_1".data, "Bone".data), ("pub_1".data, "Mice".data)] ∧
    c1Graph.edges.length = 4 :=
  ⟨rfl, rfl, rfl, rfl, rfl, rfl, rfl, rfl⟩

/-- C10: the graph-building loop of `src/adi.py` and the graph-building
loop of `src/visualize.py`, applied to the same mapping of document ids to
records, produce identical graphs: the same node list (with identical
type, color, size and label attributes) and the same edge list. -/
theorem adi_visualize_loops_agree :
    ∀ data : List (Str × RawDoc), loadGraphData data = Viz.loadGraphData data :=
  fun _ => rfl

theorem nodesP_addNode {P : Str × NodeAttrs → Prop} {G : Graph} {k : Str} {a : NodeAttrs}
    (hG : ∀ p ∈ G.nodes, P p) (ha : P (k, a)) : ∀ p ∈ (addNode G k a).nodes, P p :=
  fun p hp => (mem_addNode hp).elim (fun h => h ▸ ha) (hG p)

theorem processDoc_inv (P : Str × NodeAttrs → Prop) (G : Graph) (id : Str) (d : Doc)
    (hG : ∀ p ∈ G.nodes, P p)
    (hpub : P ("pub_".data ++ id,
      ⟨"Publication".data, colorOf "Publication".data, 18, d.Title.take 100⟩))
    (hmis : ∀ m ∈ missionMatches d.Introduction,
      P (stripWs m, ⟨"Mission".data, colorOf "Mission".data, 14, stripWs m⟩))
    (hkw : ∀ kl ∈ keywordLabels d.Title d.Abstract,
      P (kl, ⟨"Keyword".data, colorOf "Keyword".data, 10, kl⟩))
    (horg : ∀ o ∈ organismMatches (d.Introduction ++ ' ' :: d.Abstract),
      P ((organismMapping.lookup (toLowerStr o)).getD (titleCase o),
         ⟨"Organism".data, colorOf "Organism".data, 12,
          (organismMapping.lookup (toLowerStr o)).getD (titleCase o)⟩)) :
    ∀ p ∈ (processDoc G id (.obj d)).nodes, P p := by
  unfold processDoc
  dsimp only
  split
  · exact hG
  · refine foldl_pres_mem (fun H => ∀ p ∈ H.nodes, P p) _ _ _ ?_ ?_
    · intro H o ho hH
      rw [addEdge_nodes]
      exact nodesP_addNode hH (horg o ho)
    · refine foldl_pres_mem (fun H => ∀ p ∈ H.nodes, P p) _ _ _ ?_ ?_
      · intro H kl hkl hH
        rw [addEdge_nodes]
        exact nodesP_addNode hH (hkw kl hkl)
      · split
        · exact nodesP_addNode hG hpub
        · refine foldl_pres_mem (fun H => ∀ p ∈ H.nodes, P p) _ _ _ ?_ ?_
          · intro H m hm hH
            rw [addEdge_nodes]
            exact nodesP_addNode hH (hmis m hm)
          · exact nodesP_addNode hG hpub

theorem loadGraphData_inv (P : Str × NodeAttrs → Prop)
    (hpub : ∀ (id : Str) (d : Doc), P ("pub_".data ++ id,
      ⟨"Publication".data, colorOf "Publication".data, 18, d.Title.take 100⟩))
    (hmis : ∀ (intro : Str), ∀ m ∈ missionMatches intro,
      P (stripWs m, ⟨"Mission".data, colorOf "Mission".data, 14, stripWs m⟩))
    (hkw : ∀ (title abstract : Str), ∀ kl ∈ keywordLabels title abstract,
      P (kl, ⟨"Keyword".data, colorOf "Keyword".data, 10, kl⟩))
    (horg : ∀ (text : Str), ∀ o ∈ organismMatches text,
      P ((organismMapping.lookup (toLowerStr o)).getD (titleCase o),
         ⟨"Organism".data, colorOf "Organism".data, 12,
          (organismMapping.lookup (toLowerStr o)).getD (titleCase o)⟩)) :
    ∀ (data : List (Str × RawDoc)), ∀ p ∈ (loadGraphData data).nodes, P p := by
  intro data
  refine foldl_pres_mem (fun H => ∀ p ∈ H.nodes, P p) _ _ _ ?_ ?_
  · intro H x _ hH
    match x with
    | (id, .nonDict) => exact hH
    | (id, .obj d) =>
      exact processDoc_inv P H id d hH (hpub id d) (hmis d.Introduction)
        (hkw d.Title d.Abstract) (horg (d.Introduction ++ ' ' :: d.Abstract))
  · intro p hp
    cases hp

theorem processDoc_rejected (G : Graph) (id : Str) (bad : RawDoc)
    (h : bad = .nonDict ∨ ∃ d, bad = .obj d ∧ (d.Title.isEmpty = true ∨ d.Title.length < 5)) :
    processDoc G id bad = G := by
  rcases h with h | ⟨d, h, hd⟩
  · rw [h]
    rfl
  · rw [h]
    unfold processDoc
    dsimp only
    rw [if_pos]
    rcases hd with hd | hd
    · simp [hd]
    · simp [hd]

/-- C3: the graph assembler never raises on a malformed record: a record
that is not dictionary-shaped, or whose normalized Title is empty or
shorter than 5 characters, is skipped and contributes no nodes and no
edges; in particular a record with Title "Hi" adds no Publication node and
none of its entities even though its Abstract contains keyword matches. -/
theorem malformed_record_skipped :
    (∀ (pre post : List (Str × RawDoc)) (id : Str) (bad : RawDoc),
      (bad = .nonDict ∨ ∃ d, bad = .obj d ∧ (d.Title.isEmpty = true ∨ d.Title.length < 5)) →
      loadGraphData (pre ++ (id, bad) :: post) = loadGraphData (pre ++ post)) ∧
    loadGraphData [("1".data, .obj ⟨"Hi".data, "microgravity bone".data, [], []⟩)] = graphInit := by
  constructor
  · intro pre post id bad h
    unfold loadGraphData
    rw [List.foldl_append, List.foldl_append, List.foldl_cons,
      processDoc_rejected _ id bad h]
  · rfl

theorem malformed_record_skipped_witness :
    loadGraphData [("x".data, RawDoc.nonDict)] = loadGraphData [] :=
  malformed_record_skipped.1 [] [] "x".data RawDoc.nonDict (Or.inl rfl)

/-- C2: in every assembled graph, non-Publication nodes are keyed by their
canonical label (node key equals label), so entity nodes are deduplicated
graph-wide; in particular two documents both mentioning "ISS" in their
Introduction produce exactly one Mission node keyed "ISS" and two edges,
one from each document's Publication node to that shared node. -/
theorem entity_nodes_deduplicated_by_label :
    (∀ (data : List (Str × RawDoc)), ∀ p ∈ (loadGraphData data).nodes,
      p.2.ty ≠ "Publication".data → p.2.label = p.1) ∧
    (c2Graph.nodes.filter (fun p => p.2.ty == "Mission".data)
      = [("ISS".data, ⟨"Mission".data, colorOf "Mission".data, 14, "ISS".data⟩)] ∧
     c2Graph.edges = [("pub_1".data, "ISS".data), ("pub_2".data, "ISS".data)] ∧
     c2Graph.edges.length = 2) := by
  constructor
  · refine loadGraphData_inv (fun p => p.2.ty ≠ "Publication".data → p.2.label = p.1) ?_ ?_ ?_ ?_
    · intro id d h
      exact absurd rfl h
    · intro _ m _ _
      rfl
    · intro _ _ kl _ _
      rfl
    · intro _ o _ _
      rfl
  · exact ⟨rfl, rfl, rfl⟩

theorem entity_nodes_deduplicated_by_label_witness :
    (("ISS".data, (⟨"Mission".data, colorOf "Mission".data, 14, "ISS".data⟩ : NodeAttrs))
        ∈ c2Graph.nodes →
      ("Mission".data : Str) ≠ "Publication".data →
      (⟨"Mission".data, colorOf "Mission".data, 14, "ISS".data⟩ : NodeAttrs).label
        = "ISS".data) ∧
    (("ISS".data, (⟨"Mission".data, colorOf "Mission".data, 14, "ISS".data⟩ : NodeAttrs))
        ∈ c2Graph.nodes) :=
  ⟨fun hm hty => entity_nodes_deduplicated_by_label.1
      [("1".data, .obj demoDocA), ("2".data, .obj demoDocB)] _ hm hty,
   by decide⟩

/-- C8: the mission extractor returns the set of distinct matched
substrings used verbatim (trimmed) as Mission labels: every Mission node
of a single-record graph is keyed and labelled by a trimmed raw match of
the mission pattern on the Introduction, and the two renderings "Bion-M1"
and "Bion-M 1" of the same mission produce two distinct Mission nodes with
exactly those labels. -/
theorem mission_labels_verbatim :
    (∀ intro : Str, (missionMatches intro).Nodup) ∧
    (∀ (id : Str) (d : Doc), ∀ p ∈ (loadGraphData [(id, .obj d)]).nodes,
      p.2.ty = "Mission".data →
      p.1 ∈ (reFindAll missionMatchLen none d.Introduction).map stripWs ∧
        p.2.label = p.1) ∧
    c8Graph.nodes.filter (fun p => p.2.ty == "Mission".data)
      = [("Bion-M1".data, ⟨"Mission".data, colorOf "Mission".data, 14, "Bion-M1".data⟩),
         ("Bion-M 1".data, ⟨"Mission".data, colorOf "Mission".data, 14, "Bion-M 1".data⟩)] := by
  refine ⟨fun intro => nodup_dedupF _, ?_, rfl⟩
  intro id d
  have hsingle : loadGraphData [(id, .obj d)] = processDoc graphInit id (.obj d) := rfl
  rw [hsingle]
  refine processDoc_inv
    (fun p => p.2.ty = "Mission".data →
      p.1 ∈ (reFindAll missionMatchLen none d.Introduction).map stripWs ∧
        p.2.label = p.1) graphInit id d ?_ ?_ ?_ ?_ ?_
  · intro p hp
    cases hp
  · intro h
    exact absurd h (show ¬("Publication".data : Str) = "Mission".data by decide)
  · intro m hm _
    exact ⟨List.mem_map_of_mem stripWs (mem_dedupF hm), rfl⟩
  · intro kl _ h
    exact absurd h (show ¬("Keyword".data : Str) = "Mission".data by decide)
  · intro o _ h
    exact absurd h (show ¬("Organism".data : Str) = "Mission".data by decide)

theorem mission_labels_verbatim_witness :
    (("Bion-M1".data,
        (⟨"Mission".data, colorOf "Mission".data, 14, "Bion-M1".data⟩ : NodeAttrs))
      ∈ (loadGraphData [("1".data,
          .obj ⟨"Bion Study".data, [], "In Bion-M1 and Bion-M 1 flights.".data, []⟩)]).nodes) ∧
    ("Bion-M1".data
      ∈ (reFindAll missionMatchLen none "In Bion-M1 and Bion-M 1 flights.".data).map stripWs) :=
  ⟨by decide,
   (mission_labels_verbatim.2.1 "1".data
      ⟨"Bion Study".data, [], "In Bion-M1 and Bion-M 1 flights.".data, []⟩
      ("Bion-M1".data,
        ⟨"Mission".data, colorOf "Mission".data, 14, "Bion-M1".data⟩)
      (by decide) rfl).1⟩

theorem pyLowerCh_ascii {c : Char} (h : c.toNat < 128) : pyLowerCh c = c.toLower := by
  unfold pyLowerCh
  have h1 : ¬((c.toNat == 0x130) = true) := by simp; omega
  have h2 : ¬((c.toNat == 0x131) = true) := by simp; omega
  have h3 : ¬((c.toNat == 0x17F) = true) := by simp; omega
  rw [if_neg h1, if_neg h2, if_neg h3]

theorem ciLit_spec : ∀ (pat s r : Str),
    (∀ c ∈ pat, c.toNat < 128) → (∀ c ∈ s, c.toNat < 128) →
    ciLit pat s = some r →
    toLowerStr (s.take pat.length) = toLowerStr pat ∧ s.drop pat.length = r := by
  intro pat
  induction pat with
  | nil =>
    intro s r _ _ h
    rw [ciLit] at h
    injection h with h
    exact ⟨rfl, h⟩
  | cons p ps ih =>
    intro s r hP hA h
    match s with
    | [] => cases h
    | c :: cs =>
      rw [ciLit] at h
      split at h
      · next hbeq =>
        obtain ⟨h1, h2⟩ := ih cs r (fun x hx => hP x (List.mem_cons_of_mem p hx))
          (fun x hx => hA x (List.mem_cons_of_mem c hx)) h
        refine ⟨?_, h2⟩
        simp only [List.length_cons, List.take_succ_cons, toLowerStr, List.map_cons]
        have hcp : c.toLower = p.toLower := by
          have he := eq_of_beq hbeq
          rwa [pyLowerCh_ascii (hA c (List.mem_cons_self c cs)),
            pyLowerCh_ascii (hP p (List.mem_cons_self p ps))] at he
        rw [hcp]
        exact congrArg _ h1
      · cases h

theorem altLit_spec {pat s : Str} {n : Nat}
    (hP : ∀ c ∈ pat, c.toNat < 128) (hA : ∀ c ∈ s, c.toNat < 128)
    (h : altLit pat s = some n) :
    n = pat.length ∧ toLowerStr (s.take n) = toLowerStr pat := by
  unfold altLit at h
  cases hc : ciLit pat s with
  | none => simp only [hc] at h; cases h
  | some r =>
    simp only [hc] at h
    split at h
    · injection h with h
      subst h
      exact ⟨rfl, (ciLit_spec pat s r hP hA hc).1⟩
    · cases h

theorem orgAltLen_key {s : Str} {n : Nat}
    (hA : ∀ c ∈ s, c.toNat < 128) (h : orgAltLen s = some n) :
    toLowerStr (s.take n) ∈ organismMapping.map Prod.fst := by
  unfold orgAltLen at h
  cases h1 : altLit "mice".data s with
  | some m =>
    simp only [h1] at h; injection h with h; subst h
    obtain ⟨hn, hl⟩ := altLit_spec (by decide) hA h1
    subst hn; rw [hl]; decide
  | none =>
  simp only [h1] at h
  cases h2 : altLit "mouse".data s with
  | some m =>
    simp only [h2] at h; injection h with h; subst h
    obtain ⟨hn, hl⟩ := altLit_spec (by decide) hA h2
    subst hn; rw [hl]; decide
  | none =>
  simp only [h2] at h
  cases h3 : altLit "mus musculus".data s with
  | some m =>
    simp only [h3] at h; injection h with h; subst h
    obtain ⟨hn, hl⟩ := altLit_spec (by decide) hA h3
    subst hn; rw [hl]; decide
  | none =>
  simp only [h3] at h
  cases h4 : altLit "rats".data s with
  | some m =>
    simp only [h4] at h; injection h with h; subst h
    obtain ⟨hn, hl⟩ := altLit_spec (by decide) hA h4
    subst hn; rw [hl]; decide
  | none =>
  simp only [h4] at h
  cases h5 : altLit "human".data s with
  | some m =>
    simp only [h5] at h; injection h with h; subst h
    obtain ⟨hn, hl⟩ := altLit_spec (by decide) hA h5
    subst hn; rw [hl]; decide
  | none =>
  simp only [h5] at h
  cases h6 : altLit "homo sapiens".data s with
  | some m =>
    simp only [h6] at h; injection h with h; subst h
    obtain ⟨hn, hl⟩ := altLit_spec (by decide) hA h6
    subst hn; rw [hl]; decide
  | none =>
  simp only [h6] at h
  cases h7 : ciLit "c57bl/6".data s with
  | none => simp only [h7] at h; cases h
  | some r =>
    simp only [h7] at h
    obtain ⟨hl7, hd7⟩ := ciLit_spec "c57bl/6".data s r (by decide) hA h7
    have hlen7 : ("c57bl/6".data : Str).length = 7 := rfl
    rw [hlen7] at hl7 hd7
    rcases r with _ | ⟨c, r2⟩
    · injection h with h
      subst h
      rw [hl7]; decide
    · dsimp only at h
      split at h
      · next hj =>
        split at h
        · injection h with h; subst h
          have hcmem : c ∈ s := by
            have hcd : c ∈ s.drop 7 := by
              rw [hd7]; exact List.mem_cons_self c r2
            exact List.mem_of_mem_drop hcd
          have h8 : s.take 8 = s.take 7 ++ (s.drop 7).take 1 := List.take_add s 7 1
          rw [h8, hd7]
          show toLowerStr (List.take 7 s ++ [c]) ∈ _
          rw [toLowerStr, List.map_append, ← toLowerStr, hl7]
          have hcj : List.map Char.toLower [c] = ['j'] := by
            have he := eq_of_beq hj
            rw [pyLowerCh_ascii (hA c hcmem)] at he
            simp [he]
          rw [hcj]
          decide
        · cases h
      · split at h
        · injection h with h; subst h
          rw [hl7]; decide
        · cases h

theorem organismMatchLen_key {prev : Option Char} {s : Str} {n : Nat}
    (hA : ∀ c ∈ s, c.toNat < 128) (h : organismMatchLen prev s = some n) :
    toLowerStr (s.take n) ∈ organismMapping.map Prod.fst := by
  unfold organismMatchLen at h
  split at h
  · exact orgAltLen_key hA h
  · cases h

theorem reFindGo_mem (f : Option Char → Str → Option Nat) :
    ∀ (fuel : Nat) (prev : Option Char) (s m : Str),
      m ∈ reFindGo f fuel prev s →
      ∃ prev2 s2 n, f prev2 s2 = some n ∧ m = s2.take n ∧ List.IsSuffix s2 s := by
  intro fuel
  induction fuel with
  | zero => intro prev s m h; cases h
  | succ k ih =>
    intro prev s m h
    match s with
    | [] => cases h
    | c :: cs =>
      rw [reFindGo] at h
      cases hf : f prev (c :: cs) with
      | none =>
        simp only [hf] at h
        obtain ⟨p2, s2, n, hf2, hm2, hsuf⟩ := ih (some c) cs m h
        exact ⟨p2, s2, n, hf2, hm2, hsuf.trans (List.suffix_cons c cs)⟩
      | some n =>
        simp only [hf] at h
        split at h
        · next hn0 =>
          rcases List.mem_cons.1 h with h | h
          · subst hn0
            exact ⟨prev, c :: cs, 0, hf, h, List.suffix_refl _⟩
          · obtain ⟨p2, s2, n2, hf2, hm2, hsuf⟩ := ih (some c) cs m h
            exact ⟨p2, s2, n2, hf2, hm2, hsuf.trans (List.suffix_cons c cs)⟩
        · rcases List.mem_cons.1 h with h | h
          · exact ⟨prev, c :: cs, n, hf, h, List.suffix_refl _⟩
          · obtain ⟨p2, s2, n2, hf2, hm2, hsuf⟩ := ih _ _ m h
            exact ⟨p2, s2, n2, hf2, hm2, hsuf.trans (List.drop_suffix n (c :: cs))⟩

theorem loadGraphData_inv_of_mem (P : Str × NodeAttrs → Prop)
    (data : List (Str × RawDoc))
    (h : ∀ id d, (id, RawDoc.obj d) ∈ data →
      (P ("pub_".data ++ id,
          ⟨"Publication".data, colorOf "Publication".data, 18, d.Title.take 100⟩) ∧
       (∀ m ∈ missionMatches d.Introduction,
         P (stripWs m, ⟨"Mission".data, colorOf "Mission".data, 14, stripWs m⟩)) ∧
       (∀ kl ∈ keywordLabels d.Title d.Abstract,
         P (kl, ⟨"Keyword".data, colorOf "Keyword".data, 10, kl⟩)) ∧
       (∀ o ∈ organismMatches (d.Introduction ++ ' ' :: d.Abstract),
         P ((organismMapping.lookup (toLowerStr o)).getD (titleCase o),
            ⟨"Organism".data, colorOf "Organism".data, 12,
             (organismMapping.lookup (toLowerStr o)).getD (titleCase o)⟩)))) :
    ∀ p ∈ (loadGraphData data).nodes, P p := by
  refine foldl_pres_mem (fun H => ∀ p ∈ H.nodes, P p) _ _ _ ?_ ?_
  · intro H x hx hH
    rcases x with ⟨id, dd⟩
    cases dd with
    | nonDict => exact hH
    | obj d =>
      obtain ⟨hpub, hmis, hkw, horg⟩ := h id d hx
      exact processDoc_inv P H id d hH hpub hmis hkw horg
  · intro p hp
    cases hp

/-- C9 counterexample: the claim as stated is false of the program.
CPython's `re.IGNORECASE` applies Unicode case folding, so in the text
"the ratſ ran" the alternative `rats` matches the token "ratſ" (long s
folds to `s`); its lower-cased form is absent from the canonicalization
table, the supposedly unreachable title-case fallback runs, and assembly
produces an Organism node labelled "Ratſ", which is none of "Mice",
"Rats", "Humans". -/
theorem organism_fallback_reached_on_long_s :
    "ratſ".data ∈ reFindAll organismMatchLen none "the ratſ ran".data ∧
    organismMapping.lookup (toLowerStr "ratſ".data) = none ∧
    ("Ratſ".data,
        (⟨"Organism".data, colorOf "Organism".data, 12, "Ratſ".data⟩ : NodeAttrs))
      ∈ (loadGraphData
          [("1".data, .obj ⟨"Fold Study".data, "the ratſ ran".data, [], []⟩)]).nodes ∧
    ("Ratſ".data ≠ "Mice".data ∧ "Ratſ".data ≠ "Rats".data ∧
      "Ratſ".data ≠ "Humans".data) := by
  refine ⟨by decide, rfl, by decide, by decide⟩

/-- C9 (amended): for every ASCII input text (all code points below 128),
every token matched by the organism pattern has a lower-cased form present
in the canonicalization table (mapping to "Mice", "Rats" or "Humans"), so
on ASCII input the title-cased fallback branch is unreachable; and the
Organism node labels produced by assembling records whose Introduction
and Abstract are ASCII are all among "Mice", "Rats", "Humans".  On
non-ASCII input the fallback is reachable, because CPython's IGNORECASE
folds characters such as the long s into the pattern's letters. -/
theorem organism_fallback_unreachable_on_ascii :
    (∀ (text m : Str), (∀ c ∈ text, c.toNat < 128) →
      m ∈ reFindAll organismMatchLen none text →
      ∃ v, organismMapping.lookup (toLowerStr m) = some v ∧
        (v = "Mice".data ∨ v = "Rats".data ∨ v = "Humans".data)) ∧
    (∀ (data : List (Str × RawDoc)),
      (∀ id d, (id, RawDoc.obj d) ∈ data →
        ∀ c ∈ d.Introduction ++ ' ' :: d.Abstract, c.toNat < 128) →
      ∀ p ∈ (loadGraphData data).nodes, p.2.ty = "Organism".data →
      (p.2.label = "Mice".data ∨ p.2.label = "Rats".data ∨
        p.2.label = "Humans".data)) := by
  have main : ∀ (text m : Str), (∀ c ∈ text, c.toNat < 128) →
      m ∈ reFindAll organismMatchLen none text →
      ∃ v, organismMapping.lookup (toLowerStr m) = some v ∧
        (v = "Mice".data ∨ v = "Rats".data ∨ v = "Humans".data) := by
    intro text m hascii hm
    obtain ⟨prev2, s2, n, hf, hmeq, hsuf⟩ := reFindGo_mem organismMatchLen _ _ _ _ hm
    subst hmeq
    have hA2 : ∀ c ∈ s2, c.toNat < 128 :=
      fun c hc => hascii c (hsuf.sublist.subset hc)
    have hk := organismMatchLen_key hA2 hf
    simp only [organismMapping, List.map_cons, List.map_nil, List.mem_cons,
      List.not_mem_nil, or_false] at hk
    rcases hk with h | h | h | h | h | h | h | h <;> rw [h]
    · exact ⟨"Mice".data, rfl, Or.inl rfl⟩
    · exact ⟨"Mice".data, rfl, Or.inl rfl⟩
    · exact ⟨"Mice".data, rfl, Or.inl rfl⟩
    · exact ⟨"Rats".data, rfl, Or.inr (Or.inl rfl)⟩
    · exact ⟨"Humans".data, rfl, Or.inr (Or.inr rfl)⟩
    · exact ⟨"Humans".data, rfl, Or.inr (Or.inr rfl)⟩
    · exact ⟨"Mice".data, rfl, Or.inl rfl⟩
    · exact ⟨"Mice".data, rfl, Or.inl rfl⟩
  refine ⟨main, ?_⟩
  intro data hdata
  refine loadGraphData_inv_of_mem
    (fun p => p.2.ty = "Organism".data →
      (p.2.label = "Mice".data ∨ p.2.label = "Rats".data ∨
        p.2.label = "Humans".data)) data ?_
  intro id d hmemd
  refine ⟨?_, ?_, ?_, ?_⟩
  · intro h
    exact absurd h (show ¬("Publication".data : Str) = "Organism".data by decide)
  · intro m _ h
    exact absurd h (show ¬("Mission".data : Str) = "Organism".data by decide)
  · intro kl _ h
    exact absurd h (show ¬("Keyword".data : Str) = "Organism".data by decide)
  · intro o ho _
    obtain ⟨v, hv, hv3⟩ := main (d.Introduction ++ ' ' :: d.Abstract) o
      (hdata id d hmemd) (mem_dedupF ho)
    show (organismMapping.lookup (toLowerStr o)).getD (titleCase o) = _ ∨ _ ∨ _
    rw [hv]
    simpa using hv3

theorem organism_fallback_unreachable_on_ascii_witness :
    ((∀ c ∈ ("the mice flew".data : Str), c.toNat < 128) ∧
     "mice".data ∈ reFindAll organismMatchLen none "the mice flew".data) ∧
    (∃ v, organismMapping.lookup (toLowerStr "mice".data) = some v ∧
      (v = "Mice".data ∨ v = "Rats".data ∨ v = "Humans".data)) :=
  ⟨⟨by decide, by decide⟩,
   organism_fallback_unreachable_on_ascii.1 "the mice flew".data "mice".data
     (by decide) (by decide)⟩

theorem count_snd_filter {l : List (Str × Str)} (q : Str × Str → Bool) :
    (l.map Prod.snd).Nodup →
    ∀ kv ∈ l, ((l.filter q).map Prod.snd).count kv.2 = if q kv then 1 else 0 := by
  induction l with
  | nil => intro _ kv hkv; cases hkv
  | cons a t ih =>
    intro h kv hkv
    rw [List.map_cons, List.nodup_cons] at h
    rcases List.mem_cons.1 hkv with hkv | hkv
    · subst hkv
      cases hq : q kv
      · rw [List.filter_cons_of_neg (by simp [hq])]
        have hnm : kv.2 ∉ (t.filter q).map Prod.snd := by
          intro hm
          obtain ⟨r, hr, hre⟩ := List.mem_map.1 hm
          exact h.1 (hre ▸ List.mem_map_of_mem Prod.snd (List.mem_of_mem_filter hr))
        rw [List.count_eq_zero.2 hnm]
        rfl
      · rw [List.filter_cons_of_pos (by simp [hq]), List.map_cons,
          List.count_cons_self]
        have hnm : kv.2 ∉ (t.filter q).map Prod.snd := by
          intro hm
          obtain ⟨r, hr, hre⟩ := List.mem_map.1 hm
          exact h.1 (hre ▸ List.mem_map_of_mem Prod.snd (List.mem_of_mem_filter hr))
        rw [List.count_eq_zero.2 hnm]
        rfl
    · have hne : (kv.2 == a.2) = false := by
        refine beq_eq_false_iff_ne.2 (fun he => ?_)
        exact h.1 (he ▸ List.mem_map_of_mem Prod.snd hkv)
      cases hq : q a
      · rw [List.filter_cons_of_neg (by simp [hq])]
        exact ih h.2 kv hkv
      · rw [List.filter_cons_of_pos (by simp [hq]), List.map_cons]
        have hne2 : ¬(a.2 = kv.2) := by
          intro he
          apply h.1
          rw [he]
          exact List.mem_map_of_mem Prod.snd hkv
        have hbe : (a.2 == kv.2) = false := beq_eq_false_iff_ne.2 hne2
        simp only [List.count_cons, hbe, Bool.false_eq_true, if_false, Nat.add_zero]
        exact ih h.2 kv hkv

/-- C7 counterexample: the claim's example is false on the code — the
phrase "immune" is not a substring of "immunity" (the two differ at their
sixth letter), so a document whose combined title-plus-abstract text is
"immunity" does not receive the keyword label "Immune System". -/
theorem keyword_immune_not_matching_immunity :
    containsSub "immune".data (toLowerStr ("immunity".data ++ ' ' :: ([] : Str))) = false ∧
    "Immune System".data ∉ keywordLabels "immunity".data [] := by
  exact ⟨rfl, by decide⟩

/-- C7 (amended): the keyword extractor outputs the canonical label of a
lexicon entry exactly once if and only if the entry's phrase is a
substring of the lower-cased combined title-plus-abstract text,
independent of match count or position, and with no word-boundary
requirement — for example the phrase "bone" matches inside "backbones" and
contributes the label "Bone" (the phrase "immune", however, does not match
inside "immunity", which does not contain it as a substring). -/
theorem keyword_substring_semantics :
    (∀ (title abstract : Str), ∀ kv ∈ keywordsList,
      (keywordLabels title abstract).count kv.2
        = if containsSub kv.1 (toLowerStr (title ++ ' ' :: abstract)) then 1 else 0) ∧
    "Bone".data ∈ keywordLabels "backbones of physiology".data [] := by
  refine ⟨?_, by decide⟩
  intro title abstract kv hkv
  show ((keywordsList.filter
      (fun p => containsSub p.1 (toLowerStr (title ++ ' ' :: abstract)))).map Prod.snd).count kv.2
    = _
  exact count_snd_filter _ (by decide) kv hkv

theorem keyword_substring_semantics_witness :
    (("bone".data, "Bone".data) ∈ keywordsList) ∧
    ((keywordLabels "Bone loss".data []).count "Bone".data
      = if containsSub "bone".data (toLowerStr ("Bone loss".data ++ ' ' :: [])) then 1 else 0) :=
  ⟨by decide,
   keyword_substring_semantics.1 "Bone loss".data [] ("bone".data, "Bone".data) (by decide)⟩

theorem map_fst_filter_key (c : Str → Bool) :
    ∀ (l : List (Str × NodeAttrs)),
      (l.filter (fun p => c p.1)).map Prod.fst = (l.map Prod.fst).filter c := by
  intro l
  induction l with
  | nil => rfl
  | cons a t ih =>
    by_cases h : c a.1 = true <;> simp [List.filter_cons, h, ih]

theorem filter_keys_of_nodup {l : List (Str × NodeAttrs)} (q : Str × NodeAttrs → Bool)
    (h : (l.map Prod.fst).Nodup) :
    l.filter (fun p => ((l.filter q).map Prod.fst).contains p.1) = l.filter q := by
  apply List.filter_congr
  intro p hp
  have hiff : p.1 ∈ (l.filter q).map Prod.fst ↔ q p = true := by
    constructor
    · intro hm
      obtain ⟨r, hr, hre⟩ := List.mem_map.1 hm
      have hrl := List.mem_of_mem_filter hr
      have hq := List.of_mem_filter hr
      have hrp := keys_inj h r hrl p hp hre
      rwa [hrp] at hq
    · intro hq
      exact List.mem_map.2 ⟨p, List.mem_filter.2 ⟨hp, hq⟩, rfl⟩
  cases hq : q p
  · refine Bool.eq_false_iff.2 (fun hc => ?_)
    have hm : p.1 ∈ (l.filter q).map Prod.fst := List.elem_iff.1 hc
    rw [hiff.1 hm] at hq
    cases hq
  · exact List.elem_iff.2 (hiff.2 hq)

theorem filter_take_of_nodup :
    ∀ (P : List Str), P.Nodup → ∀ (m : Nat),
      P.filter (fun x => (P.take m).contains x) = P.take m := by
  intro P
  induction P with
  | nil => intro _ m; simp
  | cons x xs ih =>
    intro h m
    rw [List.nodup_cons] at h
    cases m with
    | zero => simp
    | succ m2 =>
      simp only [List.take_succ_cons, List.filter_cons]
      have hx : ((x :: xs.take m2).contains x) = true := by simp
      rw [hx, if_pos rfl]
      have hcong : ∀ a ∈ xs,
          ((x :: xs.take m2).contains a) = ((xs.take m2).contains a) := by
        intro a ha
        have hax : ¬(a = x) := fun he => h.1 (he ▸ ha)
        cases hc : (xs.take m2).contains a
        · refine Bool.eq_false_iff.2 (fun hcc => ?_)
          have := List.elem_iff.1 hcc
          rcases List.mem_cons.1 this with he | he
          · exact hax he
          · have hc2 : (List.take m2 xs).contains a = true := List.elem_iff.2 he
            rw [hc2] at hc
            cases hc
        · exact List.elem_iff.2
            (List.mem_cons_of_mem x (List.elem_iff.1 hc))
      rw [List.filter_congr hcong, ih h.2 m2]

theorem projected_keys_nodup {G : Graph} (h : (G.nodes.map Prod.fst).Nodup) :
    ((projectedG G).nodes.map Prod.fst).Nodup :=
  h.sublist ((List.filter_sublist G.nodes).map Prod.fst)

theorem finalView_nodes_eq {G : Graph} {sel : List Str} {maxP : Nat}
    (hnd : (G.nodes.map Prod.fst).Nodup) :
    (finalView G sel maxP).nodes
      = (projectedG G).nodes.filter (keepNodeB sel (pubsShown G sel maxP)) := by
  show (projectedG G).nodes.filter
      (fun p => ((((projectedG G).nodes.filter
        (keepNodeB sel (pubsShown G sel maxP))).map Prod.fst)).contains p.1)
    = (projectedG G).nodes.filter (keepNodeB sel (pubsShown G sel maxP))
  exact filter_keys_of_nodup _ (projected_keys_nodup hnd)

/-- C4: for every graph (with well-formed, duplicate-free node keys) and
every view request, the ViewGraph contains exactly the first
`min(maxPublications, number of Publication nodes)` Publication nodes of
the projected graph in iteration order when `"Publication"` is selected;
every non-Publication node of the projected graph is kept iff its type is
selected (the cap never removes entity nodes); every kept node has a
selected type; and no Publication node survives when `"Publication"` is
not selected. -/
theorem selector_cap_and_type_filter (G : Graph) (sel : List Str) (maxP : Nat)
    (hnd : (G.nodes.map Prod.fst).Nodup) :
    (sel.contains "Publication".data = true →
      typedKeys (finalView G sel maxP) "Publication".data
        = (pubNodesAll (projectedG G)).take maxP) ∧
    (∀ p ∈ (projectedG G).nodes, p.2.ty ≠ "Publication".data →
      (p ∈ (finalView G sel maxP).nodes ↔ sel.contains p.2.ty = true)) ∧
    (∀ p ∈ (finalView G sel maxP).nodes, sel.contains p.2.ty = true) ∧
    (sel.contains "Publication".data = false →
      typedKeys (finalView G sel maxP) "Publication".data = []) := by
  have hP : (pubNodesAll (projectedG G)).Nodup :=
    (projected_keys_nodup hnd).sublist
      ((List.filter_sublist (projectedG G).nodes).map Prod.fst)
  refine ⟨?_, ?_, ?_, ?_⟩
  · intro hPub
    unfold typedKeys
    rw [finalView_nodes_eq hnd, List.filter_filter]
    have hcong : ∀ p ∈ (projectedG G).nodes,
        ((p.2.ty == "Publication".data) && keepNodeB sel (pubsShown G sel maxP) p)
          = ((pubsShown G sel maxP).contains p.1 && (p.2.ty == "Publication".data)) := by
      intro p _
      cases hb : p.2.ty == "Publication".data
      · simp
      · have hty := eq_of_beq hb
        simp only [Bool.true_and, Bool.and_true]
        unfold keepNodeB
        rw [hty, if_pos hPub, if_pos (by simp)]
    rw [List.filter_congr hcong, ← List.filter_filter, map_fst_filter_key]
    show (pubNodesAll (projectedG G)).filter
        (fun x => (pubsShown G sel maxP).contains x) = _
    rw [pubsShown, if_pos hPub]
    exact filter_take_of_nodup _ hP maxP
  · intro p hp hty
    rw [finalView_nodes_eq hnd]
    constructor
    · intro hm
      have hq := List.of_mem_filter hm
      unfold keepNodeB at hq
      split at hq
      · assumption
      · cases hq
    · intro hs
      refine List.mem_filter.2 ⟨hp, ?_⟩
      unfold keepNodeB
      rw [if_pos hs, if_neg (by simp [beq_eq_false_iff_ne.2 hty])]
  · intro p hm
    rw [finalView_nodes_eq hnd] at hm
    have hq := List.of_mem_filter hm
    unfold keepNodeB at hq
    split at hq
    · assumption
    · cases hq
  · intro hPub
    unfold typedKeys
    rw [finalView_nodes_eq hnd, List.filter_filter]
    have hnil : (projectedG G).nodes.filter
        (fun p => (p.2.ty == "Publication".data) &&
          keepNodeB sel (pubsShown G sel maxP) p) = [] := by
      rw [List.filter_eq_nil_iff]
      intro p _ hcond
      rw [Bool.and_eq_true] at hcond
      have hty := eq_of_beq hcond.1
      have hkeep := hcond.2
      unfold keepNodeB at hkeep
      rw [hty] at hkeep
      rw [if_neg (by rw [hPub]; exact Bool.false_ne_true)] at hkeep
      cases hkeep
    rw [hnil]
    rfl

theorem selector_cap_and_type_filter_witness :
    (capGraph.nodes.map Prod.fst).Nodup ∧
    selPubKw.contains "Publication".data = true ∧
    typedKeys (finalView capGraph selPubKw 1) "Publication".data
      = (pubNodesAll (projectedG capGraph)).take 1 :=
  ⟨by decide, by decide,
   (selector_cap_and_type_filter capGraph selPubKw 1 (by decide)).1 (by decide)⟩

/-- C5: an entity node of a selected type that is in the projected graph
remains in the ViewGraph even when every node it was adjacent to is a
Publication node excluded by the publication cap; such a node then has
degree 0 in the ViewGraph (entity nodes are never re-checked for adjacency
to a kept publication). -/
theorem orphan_entity_kept_with_degree_zero (G : Graph) (sel : List Str) (maxP : Nat)
    (p : Str × NodeAttrs)
    (hnd : (G.nodes.map Prod.fst).Nodup)
    (hp : p ∈ (projectedG G).nodes)
    (hty : p.2.ty ≠ "Publication".data)
    (hsel : sel.contains p.2.ty = true)
    (hadj : ∀ e ∈ G.edges, (e.1 = p.1 ∨ e.2 = p.1) →
      (∀ q ∈ G.nodes, q.1 = (if e.1 = p.1 then e.2 else e.1) →
        q.2.ty = "Publication".data) ∧
      (if e.1 = p.1 then e.2 else e.1) ∉ pubsShown G sel maxP) :
    p ∈ (finalView G sel maxP).nodes ∧ degreeOf (finalView G sel maxP) p.1 = 0 := by
  constructor
  · rw [finalView_nodes_eq hnd]
    refine List.mem_filter.2 ⟨hp, ?_⟩
    unfold keepNodeB
    rw [if_pos hsel, if_neg (by simp [beq_eq_false_iff_ne.2 hty])]
  · unfold degreeOf
    rw [List.length_eq_zero, List.filter_eq_nil_iff]
    intro e he hcond
    have he2 : e ∈ (projectedG G).edges.filter
        (fun e => (finalKeep G sel maxP).contains e.1 &&
          (finalKeep G sel maxP).contains e.2) := he
    have hGedge : e ∈ G.edges := by
      have h1 := List.mem_of_mem_filter he2
      have h2 : e ∈ G.edges.filter
          (fun e => relevantB G e.1 && relevantB G e.2) := h1
      exact List.mem_of_mem_filter h2
    have hor : e.1 = p.1 ∨ e.2 = p.1 := by
      simp only [Bool.or_eq_true, beq_iff_eq] at hcond
      exact hcond
    obtain ⟨hallpub, hnotshown⟩ := hadj e hGedge hor
    have hcontains : (finalKeep G sel maxP).contains
        (if e.1 = p.1 then e.2 else e.1) = true := by
      have hk := List.of_mem_filter he2
      rw [Bool.and_eq_true] at hk
      by_cases h1 : e.1 = p.1
      · rw [if_pos h1]
        exact hk.2
      · rw [if_neg h1]
        exact hk.1
    have hmem : (if e.1 = p.1 then e.2 else e.1) ∈ finalKeep G sel maxP :=
      List.elem_iff.1 hcontains
    unfold finalKeep at hmem
    obtain ⟨r, hr, hre⟩ := List.mem_map.1 hmem
    have hrq := List.of_mem_filter hr
    have hrproj := List.mem_of_mem_filter hr
    have hrG : r ∈ G.nodes := by
      have h3 : r ∈ G.nodes.filter (fun p => relevantB G p.1) := hrproj
      exact List.mem_of_mem_filter h3
    have hrpub : r.2.ty = "Publication".data := hallpub r hrG hre
    unfold keepNodeB at hrq
    rw [hrpub] at hrq
    by_cases hPb : sel.contains "Publication".data = true
    · rw [if_pos hPb, if_pos (by simp)] at hrq
      rw [hre] at hrq
      exact hnotshown (List.elem_iff.1 hrq)
    · rw [if_neg hPb] at hrq
      cases hrq

theorem orphan_entity_kept_with_degree_zero_witness :
    ((capGraph.nodes.map Prod.fst).Nodup ∧
      ("Bone".data, (⟨"Keyword".data, colorOf "Keyword".data, 10, "Bone".data⟩ : NodeAttrs))
        ∈ (projectedG capGraph).nodes) ∧
    (("Bone".data, (⟨"Keyword".data, colorOf "Keyword".data, 10, "Bone".data⟩ : NodeAttrs))
        ∈ (finalView capGraph selPubKw 1).nodes ∧
      degreeOf (finalView capGraph selPubKw 1) "Bone".data = 0) :=
  ⟨⟨by decide, by decide⟩,
   orphan_entity_kept_with_degree_zero capGraph selPubKw 1
     ("Bone".data, ⟨"Keyword".data, colorOf "Keyword".data, 10, "Bone".data⟩)
     (by decide) (by decide) (by decide) (by decide) (by decide)⟩
